import Mathlib

/-!
ThreadPool: a worker pool over a shared FIFO queue.

A shallow embedding of `SharedQueue.h` / `SharedQueue.cpp`.

* `SharedQueue T` is the mutex-protected `std::queue<T>`; every member function
  runs under the queue's mutex, so each one is a single atomic transition.
* `ThreadPool` is the pool object together with the heap of packaged-task
  shared states that queued lambdas and returned futures point to.
* `ThreadPool.RunThread` is written as a step function: one call is one atomic
  stretch of the worker body between two accesses to shared data.  Interleavings
  of workers and of the submitting thread are lists of `Event`s.
* Loops that wait for another thread (`join`, `BusyYield`, blocking `Pop`) take
  fuel or return `none` when they would wait forever.
-/

/-- Width of `unsigned int`. -/
def UINT_MOD : Nat := 2 ^ 32

/-- Conversion `static_cast<unsigned int>(n)`. -/
def toUInt (n : Nat) : Nat := n % UINT_MOD

/-! ## SharedQueue -/

/-- The class `SharedQueue<T>`: its only data member with content is `queue_`
(front of the queue = head of the list). -/
structure SharedQueue (T : Type) where
  queue_ : List T
deriving DecidableEq, Repr

namespace SharedQueue

variable {T : Type}

/-- The constructor `SharedQueue()`. -/
def new : SharedQueue T := ⟨[]⟩

/-- The member `Emplace(args...)`: `queue_.emplace(...)` appends at the back.
The argument is the constructed item. -/
def Emplace (q : SharedQueue T) (item : T) : SharedQueue T :=
  ⟨q.queue_ ++ [item]⟩

/-- The member `Push(item)`: forwards to `Emplace`. -/
def Push (q : SharedQueue T) (item : T) : SharedQueue T :=
  q.Emplace item

/-- The member `Pop(item)` when no push arrives during the wait: on an empty
queue the condition wait never returns (`none`); otherwise the front is moved
into `item` and removed.  Returns the new `item` and the new queue. -/
def Pop (q : SharedQueue T) (_item : T) : Option (T × SharedQueue T) :=
  match q.queue_ with
  | [] => none
  | x :: rest => some (x, ⟨rest⟩)

/-- The member `PopWaitFor(item, wait)` when no push arrives during the wait:
`wait_for` returns the predicate `!queue_.empty()`.  Returns the boolean result,
the caller's `item` afterwards, and the queue afterwards. -/
def PopWaitFor (q : SharedQueue T) (item : T) (_wait : Nat) : Bool × T × SharedQueue T :=
  match q.queue_ with
  | [] => (false, item, q)
  | x :: rest => (true, x, ⟨rest⟩)

/-- The loop of `Clear`: `while (!queue_.empty()) queue_.pop();`. -/
def clearLoop : List T → List T
  | [] => []
  | _ :: rest => clearLoop rest

/-- The member `Clear()`. -/
def Clear (q : SharedQueue T) : SharedQueue T :=
  ⟨clearLoop q.queue_⟩

/-- The member `IsEmpty()`. -/
def IsEmpty (q : SharedQueue T) : Bool :=
  q.queue_.isEmpty

/-- The member `Size()`. -/
def Size (q : SharedQueue T) : Nat :=
  toUInt q.queue_.length

end SharedQueue

/-- One producer call on a queue: `Push(x)` or `Emplace(x)`. -/
inductive Producer (T : Type) where
  | push (x : T)
  | emplace (x : T)
deriving DecidableEq, Repr

/-- The item a producer call carries. -/
def Producer.item {T : Type} : Producer T → T
  | .push x => x
  | .emplace x => x

/-- Perform one producer call. -/
def Producer.run {T : Type} (q : SharedQueue T) : Producer T → SharedQueue T
  | .push x => q.Push x
  | .emplace x => q.Emplace x

/-- Perform producer calls left to right. -/
def produceAll {T : Type} (q : SharedQueue T) (ps : List (Producer T)) : SharedQueue T :=
  ps.foldl Producer.run q

/-- Call `Pop` `n` times in a row, each into the same variable `item`; collects
the popped values in call order.  `none` when some call would block forever. -/
def popN {T : Type} : Nat → SharedQueue T → T → Option (List T × SharedQueue T)
  | 0, q, _ => some ([], q)
  | n + 1, q, item =>
    match q.Pop item with
    | none => none
    | some (x, q1) =>
      match popN n q1 x with
      | none => none
      | some (xs, q2) => some (x :: xs, q2)

/-! ## Tasks, packaged tasks and their shared states -/

/-- What the bound callable of a job does when it is invoked: it returns a value
or it raises (`what` is the message of the exception).  Only callables that
come back, one way or the other, are described; one that runs forever is not. -/
inductive Outcome where
  | value (v : Int)
  | failure (what : String)
deriving DecidableEq, Repr

/-- The shared state behind a `std::future`: `none` until the packaged task has
run, then the stored value or the stored exception. -/
abbrev SharedState := Option Outcome

/-- The type `ThreadTask = std::function<void()>`.  `empty` is the
default-constructed function object; `job body state` is the lambda
`[task]() { (*task)(); }` made by `QueueJob`, whose packaged task wraps a
callable behaving as `body` and owns the shared state at heap index `state`. -/
inductive ThreadTask where
  | empty
  | job (body : Outcome) (state : Nat)
deriving DecidableEq, Repr

/-- The call `task()` on a `ThreadTask`: either it returns normally with the new
heap of shared states, or it throws.  An empty function object throws
`bad_function_call`.  A packaged task without a shared state, or whose shared
state is already satisfied, throws `future_error`; otherwise it runs the
callable and stores the value, or the exception the callable raised, in the
shared state, and returns normally. -/
def ThreadTask.invoke (task : ThreadTask) (shared : List SharedState) :
    Except String (List SharedState) :=
  match task with
  | .empty => .error "bad_function_call"
  | .job body state =>
    match shared[state]? with
    | none => .error "future_error: no_state"
    | some (some _) => .error "future_error: promise_already_satisfied"
    | some none => .ok (shared.set state (some body))

/-! ## ThreadPool -/

/-- One element of `threads_`: a `std::thread` together with the point its
thread function `RunThread` has reached.
* `spawned`: created by `LaunchThreads`, `RunThread` not yet past its entry;
* `checking`: at the loop test `while (!tp->terminate_)`;
* `polling`: the test passed, about to return from `PopWaitFor`;
* `executing task`: `PopWaitFor` returned `true` with `task`, about to call it;
* `exited`: `RunThread` has returned, the thread is still joinable;
* `joined`: `join()` has returned, the thread is no longer joinable. -/
inductive Worker where
  | spawned
  | checking
  | polling
  | executing (task : ThreadTask)
  | exited
  | joined
deriving DecidableEq, Repr

/-- The member `std::thread::joinable()`: threads are never detached or moved
from, so a thread is joinable until it has been joined. -/
def Worker.joinable : Worker → Bool
  | .joined => false
  | _ => true

/-- The class `ThreadPool`, with the heap of packaged-task shared states
(`shared`) that its queued tasks and the futures handed out refer to. -/
structure ThreadPool where
  threads_ : List Worker
  threadsInWait_ : Nat
  terminate_ : Bool
  queue_ : SharedQueue ThreadTask
  shared : List SharedState
deriving DecidableEq, Repr

/-- How a call that may throw ended, with the pool as it is at that moment. -/
inductive Completion where
  | returned (tp : ThreadPool)
  | threw (what : String) (tp : ThreadPool)
deriving DecidableEq, Repr

namespace ThreadPool

/-- The constant `maxAllowableThreads`. -/
def maxAllowableThreads : Nat := 20

/-- The default constructor `ThreadPool()`. -/
def init : ThreadPool :=
  { threads_ := [], threadsInWait_ := 0, terminate_ := false,
    queue_ := SharedQueue.new, shared := [] }

/-- Pre-increment of an `std::atomic<unsigned int>`. -/
def incr (n : Nat) : Nat := (n + 1) % UINT_MOD

/-- Pre-decrement of an `std::atomic<unsigned int>`. -/
def decr (n : Nat) : Nat := (n + UINT_MOD - 1) % UINT_MOD

/-- The member `Size()`. -/
def Size (tp : ThreadPool) : Nat :=
  toUInt tp.threads_.length

/-- The member `GetNumerOfTasksInQueue()`. -/
def GetNumerOfTasksInQueue (tp : ThreadPool) : Nat :=
  tp.queue_.Size

/-- The member `IsQueueEmpty()`. -/
def IsQueueEmpty (tp : ThreadPool) : Bool :=
  tp.queue_.IsEmpty

/-- One atomic stretch of `RunThread(tp)` for the worker at index `i` (the
argument `tp` is always `this`, so the null test never fires).
* `spawned`: `++tp->threadsInWait_` on entry, then go to the loop test;
* `checking`: the loop test; when `terminate_` is set leave the loop and do
  `--tp->threadsInWait_` (thread exits), otherwise declare `ThreadTask task`
  and enter `PopWaitFor`;
* `polling`: `PopWaitFor(task, 100ms)`; `false` goes back to the loop test,
  `true` does `--tp->threadsInWait_` and holds the popped task;
* `executing task`: `try { task(); } catch ...` (both handlers only log), then
  `++tp->threadsInWait_` and back to the loop test. -/
def RunThreadStep (i : Nat) (tp : ThreadPool) : ThreadPool :=
  match tp.threads_[i]? with
  | none => tp
  | some .spawned =>
    { tp with threadsInWait_ := incr tp.threadsInWait_,
              threads_ := tp.threads_.set i .checking }
  | some .checking =>
    if tp.terminate_ then
      { tp with threadsInWait_ := decr tp.threadsInWait_,
                threads_ := tp.threads_.set i .exited }
    else
      { tp with threads_ := tp.threads_.set i .polling }
  | some .polling =>
    match tp.queue_.PopWaitFor ThreadTask.empty 100 with
    | (false, _, _) => { tp with threads_ := tp.threads_.set i .checking }
    | (true, task, q) =>
      { tp with queue_ := q, threadsInWait_ := decr tp.threadsInWait_,
                threads_ := tp.threads_.set i (.executing task) }
  | some (.executing task) =>
    let shared1 :=
      match task.invoke tp.shared with
      | .ok sh => sh
      | .error _ => tp.shared
    { tp with shared := shared1, threadsInWait_ := incr tp.threadsInWait_,
              threads_ := tp.threads_.set i .checking }
  | some .exited => tp
  | some .joined => tp

/-- The call `thread.join()` on the joinable thread at index `i`: the caller
waits while the worker keeps running until `RunThread` returns.  `none` when the
worker has not returned after `fuel` steps. -/
def joinThread (i : Nat) : Nat → ThreadPool → Option ThreadPool
  | 0, tp =>
    if tp.threads_[i]? = some Worker.exited then
      some { tp with threads_ := tp.threads_.set i .joined }
    else none
  | f + 1, tp =>
    if tp.threads_[i]? = some Worker.exited then
      some { tp with threads_ := tp.threads_.set i .joined }
    else joinThread i f (RunThreadStep i tp)

/-- The loop of `JoinAll` over the `n` elements of `threads_` from index `i`
on: `if (thread.joinable()) thread.join();`. -/
def joinLoop (fuel : Nat) : Nat → Nat → ThreadPool → Option ThreadPool
  | 0, _, tp => some tp
  | n + 1, i, tp =>
    match tp.threads_[i]? with
    | none => some tp
    | some w =>
      if w.joinable then
        match joinThread i fuel tp with
        | none => none
        | some tp1 => joinLoop fuel n (i + 1) tp1
      else joinLoop fuel n (i + 1) tp

/-- The member `JoinAll()`. -/
def JoinAll (fuel : Nat) (tp : ThreadPool) : Option ThreadPool :=
  joinLoop fuel tp.threads_.length 0 tp

/-- The call `std::this_thread::yield()`: the other threads get to run; here
every worker performs one step, in index order. -/
def yield (tp : ThreadPool) : ThreadPool :=
  (List.range tp.threads_.length).foldl (fun s i => RunThreadStep i s) tp

/-- The loop of `BusyYield`: `while (GetNumerOfTasksInQueue() > 0) yield();`. -/
def busyLoop : Nat → ThreadPool → Option ThreadPool
  | 0, tp => if tp.GetNumerOfTasksInQueue > 0 then none else some tp
  | f + 1, tp => if tp.GetNumerOfTasksInQueue > 0 then busyLoop f tp.yield else some tp

/-- The member `BusyYield()`: returns `mustWait` and the pool once the queue
reads empty; `none` when it still does not after `fuel` yields. -/
def BusyYield (fuel : Nat) (tp : ThreadPool) : Option (Bool × ThreadPool) :=
  let mustWait := decide (tp.GetNumerOfTasksInQueue > 0)
  match busyLoop fuel tp with
  | none => none
  | some tp1 => some (mustWait, tp1)

/-- The member `Terminate()`. -/
def Terminate (fuel : Nat) (tp : ThreadPool) : Option ThreadPool :=
  let tp1 := { tp with queue_ := tp.queue_.Clear }
  let tp2 := { tp1 with terminate_ := true }
  JoinAll fuel tp2

/-- The member `QueueJob(func, args...)`: `body` is how the bound callable
behaves.  A packaged task with a fresh shared state is allocated, the lambda
calling it is emplaced into `queue_`, and the future (the index of the shared
state) is returned. -/
def QueueJob (tp : ThreadPool) (body : Outcome) : Nat × ThreadPool :=
  let ret := tp.shared.length
  let tp1 := { tp with shared := tp.shared ++ [none] }
  (ret, { tp1 with queue_ := tp1.queue_.Emplace (ThreadTask.job body ret) })

/-- The `generate_n` of `LaunchThreads`: `n` times, `++threadsInWait_` and a new
thread running `RunThread` inserted at the end of `threads_`. -/
def launchLoop : Nat → ThreadPool → ThreadPool
  | 0, tp => tp
  | n + 1, tp =>
    launchLoop n { tp with threadsInWait_ := incr tp.threadsInWait_,
                           threads_ := tp.threads_ ++ [Worker.spawned] }

/-- The member `LaunchThreads(numOfThreads)`. -/
def LaunchThreads (numOfThreads : Nat) (tp : ThreadPool) : ThreadPool :=
  if numOfThreads > 0 then
    launchLoop numOfThreads { tp with terminate_ := false }
  else tp

/-- The member `Restart(numOfThreads)`.  `threads_.clear()` runs only after
`JoinAll` has returned, when no element is joinable any more. -/
def Restart (fuel : Nat) (numOfThreads : Nat) (tp : ThreadPool) : Option Completion :=
  if numOfThreads > maxAllowableThreads then
    some (.threw "Over the limit of the pool!" tp)
  else
    match Terminate fuel tp with
    | none => none
    | some tp1 =>
      match BusyYield fuel tp1 with
      | none => none
      | some (_, tp2) =>
        match JoinAll fuel tp2 with
        | none => none
        | some tp3 =>
          let tp4 := { tp3 with threads_ := [] }
          some (.returned (LaunchThreads numOfThreads tp4))

/-- The constructor `ThreadPool(numberOfThreads)`: the default constructor, then
`Restart(numberOfThreads)`. -/
def initN (fuel : Nat) (numberOfThreads : Nat) : Option Completion :=
  Restart fuel numberOfThreads init

/-- The destructor `~ThreadPool()`. -/
def destroy (fuel : Nat) (tp : ThreadPool) : Option ThreadPool :=
  let tp1 := { tp with terminate_ := true }
  let tp2 := { tp1 with queue_ := tp1.queue_.Clear }
  match BusyYield fuel tp2 with
  | none => none
  | some (_, tp3) => JoinAll fuel tp3

end ThreadPool

/-- One move of an interleaving: the worker at index `i` performs a step, or
the submitting thread calls `QueueJob` with a callable behaving as `body`. -/
inductive Event where
  | step (i : Nat)
  | submit (body : Outcome)
deriving DecidableEq, Repr

/-- Perform one event. -/
def Event.run (tp : ThreadPool) : Event → ThreadPool
  | .step i => tp.RunThreadStep i
  | .submit body => (tp.QueueJob body).2

/-- Perform the events of an interleaving left to right. -/
def runEvents (tp : ThreadPool) (evs : List Event) : ThreadPool :=
  evs.foldl Event.run tp

/-! ## Lemmas on the queue -/

theorem SharedQueue.clearLoop_eq_nil {T : Type} (xs : List T) :
    SharedQueue.clearLoop xs = [] := by
  induction xs with
  | nil => rfl
  | cons _ rest ih => simpa [SharedQueue.clearLoop] using ih

theorem produceAll_queue {T : Type} (ps : List (Producer T)) (q : SharedQueue T) :
    (produceAll q ps).queue_ = q.queue_ ++ ps.map Producer.item := by
  induction ps generalizing q with
  | nil => simp [produceAll]
  | cons p rest ih =>
    have h := ih (Producer.run q p)
    simp only [produceAll, List.foldl_cons] at h ⊢
    rw [h]
    cases p <;>
      simp [Producer.run, Producer.item, SharedQueue.Push, SharedQueue.Emplace]

theorem popN_all {T : Type} (xs : List T) (item : T) :
    popN xs.length (SharedQueue.mk xs) item = some (xs, SharedQueue.mk []) := by
  induction xs generalizing item with
  | nil => rfl
  | cons x rest ih =>
    simp [popN, SharedQueue.Pop, ih x]

/-! ## Claims on the queue -/

/-- C1: after any list of `Push`/`Emplace` calls on a queue that starts empty,
with no pops in between, as many `Pop` calls as there were pushes all return,
yield the pushed items in push order, and leave the queue empty. -/
theorem C1_fifo_order {T : Type} (ps : List (Producer T)) (item : T) :
    popN ps.length (produceAll SharedQueue.new ps) item
      = some (ps.map Producer.item, SharedQueue.new) := by
  have h : produceAll SharedQueue.new ps = SharedQueue.mk (ps.map Producer.item) := by
    have := produceAll_queue ps (SharedQueue.new : SharedQueue T)
    cases hq : produceAll SharedQueue.new ps with
    | mk l =>
      rw [hq] at this
      simpa [SharedQueue.new] using this
  rw [h]
  have := popN_all (ps.map Producer.item) item
  simpa [SharedQueue.new] using this

/-- C8: `PopWaitFor` with no push arriving during the wait.  On an empty queue
it returns `false` and leaves the queue and the caller's item as they were; on a
queue `x :: rest` it returns `true`, the item becomes the oldest element `x`,
and the queue becomes `rest`, in the original order. -/
theorem C8_PopWaitFor {T : Type} (item x : T) (rest : List T) (wait : Nat) :
    (SharedQueue.mk ([] : List T)).PopWaitFor item wait = (false, item, SharedQueue.mk [])
    ∧ (SharedQueue.mk (x :: rest)).PopWaitFor item wait = (true, x, SharedQueue.mk rest) :=
  ⟨rfl, rfl⟩

/-! ## Lemmas on the worker step -/

namespace ThreadPool

theorem RunThreadStep_length (i : Nat) (tp : ThreadPool) :
    (RunThreadStep i tp).threads_.length = tp.threads_.length := by
  unfold RunThreadStep
  split <;> try simp
  · split <;> simp
  · split <;> simp

theorem RunThreadStep_terminate (i : Nat) (tp : ThreadPool) :
    (RunThreadStep i tp).terminate_ = tp.terminate_ := by
  unfold RunThreadStep
  split <;> try simp
  · split <;> simp
  · split <;> simp

theorem RunThreadStep_other (i j : Nat) (tp : ThreadPool) (h : i ≠ j) :
    (RunThreadStep i tp).threads_[j]? = tp.threads_[j]? := by
  unfold RunThreadStep
  split <;> try simp [List.getElem?_set_ne h]
  · split <;> simp [List.getElem?_set_ne h]
  · split <;> simp [List.getElem?_set_ne h]

theorem RunThreadStep_queue_nil (i : Nat) (tp : ThreadPool) (h : tp.queue_.queue_ = []) :
    (RunThreadStep i tp).queue_.queue_ = [] := by
  unfold RunThreadStep
  split <;> try simp [h]
  · split <;> simp [h]
  · split
    · simp [h]
    · rename_i heq
      simp [SharedQueue.PopWaitFor, h] at heq

end ThreadPool

namespace ThreadPool

theorem joinThread_exited (i fuel : Nat) (tp : ThreadPool)
    (h : tp.threads_[i]? = some Worker.exited) :
    joinThread i fuel tp = some { tp with threads_ := tp.threads_.set i .joined } := by
  cases fuel <;> simp [joinThread, h]

theorem joinThread_step (i fuel : Nat) (tp : ThreadPool) (w : Worker)
    (h : tp.threads_[i]? = some w) (hw : w ≠ Worker.exited) :
    joinThread i (fuel + 1) tp = joinThread i fuel (RunThreadStep i tp) := by
  have hne : tp.threads_[i]? ≠ some Worker.exited := by
    rw [h]
    intro hc
    exact hw (Option.some.inj hc)
  simp [joinThread, hne]

theorem joinThread_terminated (i f : Nat) (tp : ThreadPool) (w : Worker)
    (ht : tp.terminate_ = true) (hq : tp.queue_.queue_ = [])
    (h : tp.threads_[i]? = some w) (hj : w.joinable = true) :
    ∃ tp1, joinThread i (f + 2) tp = some tp1 ∧ tp1.terminate_ = true
      ∧ tp1.queue_.queue_ = [] ∧ tp1.threads_ = tp.threads_.set i Worker.joined := by
  have hi : i < tp.threads_.length := by
    rcases List.getElem?_eq_some_iff.mp h with ⟨hi, _⟩
    exact hi
  cases w with
  | joined => simp [Worker.joinable] at hj
  | exited =>
    refine ⟨_, joinThread_exited i _ tp h, ht, hq, rfl⟩
  | checking =>
    rw [joinThread_step i (f + 1) tp _ h (by simp)]
    have h1 : (RunThreadStep i tp).threads_[i]? = some Worker.exited := by
      simp [RunThreadStep, h, ht, hi]
    refine ⟨_, joinThread_exited i _ _ h1, ?_, ?_, ?_⟩
    · simp [RunThreadStep_terminate, ht]
    · simp [RunThreadStep_queue_nil _ _ hq]
    · simp [RunThreadStep, h, ht]
  | spawned =>
    rw [joinThread_step i (f + 1) tp _ h (by simp)]
    have h1 : (RunThreadStep i tp).threads_[i]? = some Worker.checking := by
      simp [RunThreadStep, h, hi]
    rw [joinThread_step i f _ _ h1 (by simp)]
    have h2 : (RunThreadStep i (RunThreadStep i tp)).threads_[i]? = some Worker.exited := by
      simp [RunThreadStep, h, ht, hi]
    refine ⟨_, joinThread_exited i _ _ h2, ?_, ?_, ?_⟩
    · simp [RunThreadStep_terminate, ht]
    · simp [RunThreadStep_queue_nil _ _ (RunThreadStep_queue_nil _ _ hq)]
    · simp [RunThreadStep, h, ht, hi]
  | polling =>
    rw [joinThread_step i (f + 1) tp _ h (by simp)]
    have h1 : (RunThreadStep i tp).threads_[i]? = some Worker.checking := by
      simp [RunThreadStep, h, hi, SharedQueue.PopWaitFor, hq]
    rw [joinThread_step i f _ _ h1 (by simp)]
    have h2 : (RunThreadStep i (RunThreadStep i tp)).threads_[i]? = some Worker.exited := by
      simp [RunThreadStep, h, ht, hi, SharedQueue.PopWaitFor, hq]
    refine ⟨_, joinThread_exited i _ _ h2, ?_, ?_, ?_⟩
    · simp [RunThreadStep_terminate, ht]
    · simp [RunThreadStep_queue_nil _ _ (RunThreadStep_queue_nil _ _ hq)]
    · simp [RunThreadStep, h, ht, hi, SharedQueue.PopWaitFor, hq]
  | executing task =>
    rw [joinThread_step i (f + 1) tp _ h (by simp)]
    have h1 : (RunThreadStep i tp).threads_[i]? = some Worker.checking := by
      simp [RunThreadStep, h, hi]
    rw [joinThread_step i f _ _ h1 (by simp)]
    have h2 : (RunThreadStep i (RunThreadStep i tp)).threads_[i]? = some Worker.exited := by
      simp [RunThreadStep, h, ht, hi]
    refine ⟨_, joinThread_exited i _ _ h2, ?_, ?_, ?_⟩
    · simp [RunThreadStep_terminate, ht]
    · simp [RunThreadStep_queue_nil _ _ (RunThreadStep_queue_nil _ _ hq)]
    · simp [RunThreadStep, h, ht, hi]

end ThreadPool

namespace ThreadPool

theorem joinLoop_terminated (f : Nat) : ∀ (n i : Nat) (tp : ThreadPool),
    tp.terminate_ = true → tp.queue_.queue_ = [] →
    ∃ tp1, joinLoop (f + 2) n i tp = some tp1 ∧ tp1.terminate_ = true
      ∧ tp1.queue_.queue_ = [] ∧ tp1.threads_.length = tp.threads_.length
      ∧ (∀ j, j < i → tp1.threads_[j]? = tp.threads_[j]?)
      ∧ (∀ j, i ≤ j → j < i + n → j < tp.threads_.length →
          tp1.threads_[j]? = some Worker.joined) := by
  intro n
  induction n with
  | zero =>
    intro i tp ht hq
    refine ⟨tp, rfl, ht, hq, rfl, fun _ _ => rfl, ?_⟩
    intro j h1 h2
    omega
  | succ n ih =>
    intro i tp ht hq
    cases hw : tp.threads_[i]? with
    | none =>
      refine ⟨tp, by simp [joinLoop, hw], ht, hq, rfl, fun _ _ => rfl, ?_⟩
      intro j h1 _ h3
      have := List.getElem?_eq_none_iff.mp hw
      omega
    | some w =>
      cases hj : w.joinable with
      | true =>
        obtain ⟨tpa, ha, hta, hqa, hths⟩ := joinThread_terminated i f tp w ht hq hw hj
        obtain ⟨tp1, h1, ht1, hq1, hl1, hlow, hhigh⟩ := ih (i + 1) tpa hta hqa
        refine ⟨tp1, by simp [joinLoop, hw, hj, ha, h1], ht1, hq1, ?_, ?_, ?_⟩
        · rw [hl1, hths]; simp
        · intro j hji
          rw [hlow j (by omega), hths]
          exact List.getElem?_set_ne (by omega)
        · intro j h1 h2 h3
          by_cases hji : j = i
          · subst hji
            rw [hlow j (by omega), hths]
            simp [h3]
          · apply hhigh j (by omega) (by omega)
            rw [hths]; simpa using h3
      | false =>
        have hwj : w = Worker.joined := by
          cases w <;> simp [Worker.joinable] at hj ⊢
        obtain ⟨tp1, h1, ht1, hq1, hl1, hlow, hhigh⟩ := ih (i + 1) tp ht hq
        refine ⟨tp1, by simp [joinLoop, hw, hj, h1], ht1, hq1, hl1, ?_, ?_⟩
        · intro j hji
          exact hlow j (by omega)
        · intro j h1 h2 h3
          by_cases hji : j = i
          · subst hji
            rw [hlow j (by omega), hw, hwj]
          · exact hhigh j (by omega) (by omega) h3

theorem JoinAll_terminated (f : Nat) (tp : ThreadPool)
    (ht : tp.terminate_ = true) (hq : tp.queue_.queue_ = []) :
    ∃ tp1, JoinAll (f + 2) tp = some tp1 ∧ tp1.terminate_ = true
      ∧ tp1.queue_.queue_ = [] ∧ tp1.threads_.length = tp.threads_.length
      ∧ (∀ w ∈ tp1.threads_, w = Worker.joined) := by
  obtain ⟨tp1, h1, ht1, hq1, hl1, _, hhigh⟩ :=
    joinLoop_terminated f tp.threads_.length 0 tp ht hq
  refine ⟨tp1, h1, ht1, hq1, hl1, ?_⟩
  intro w hw
  obtain ⟨j, hj⟩ := List.mem_iff_getElem?.mp hw
  have hjl : j < tp1.threads_.length := (List.getElem?_eq_some_iff.mp hj).1
  have := hhigh j (by omega) (by omega) (by omega)
  rw [hj] at this
  exact Option.some.inj this

theorem joinLoop_all_joined (fuel : Nat) : ∀ (n i : Nat) (tp : ThreadPool),
    (∀ w ∈ tp.threads_, w = Worker.joined) → joinLoop fuel n i tp = some tp := by
  intro n
  induction n with
  | zero => intro i tp _; rfl
  | succ n ih =>
    intro i tp hall
    cases hw : tp.threads_[i]? with
    | none => simp [joinLoop, hw]
    | some w =>
      have hwj : w = Worker.joined := hall w (List.mem_iff_getElem?.mpr ⟨i, hw⟩)
      subst hwj
      simp [joinLoop, hw, Worker.joinable, ih (i + 1) tp hall]

/-- The call `Terminate()` returns on every pool: the queue is cleared, the flag is set,
`threads_` keeps its length and every element has been joined. -/
theorem Terminate_returns (f : Nat) (tp : ThreadPool) :
    ∃ tp1, Terminate (f + 2) tp = some tp1 ∧ tp1.terminate_ = true
      ∧ tp1.queue_.queue_ = [] ∧ tp1.threads_.length = tp.threads_.length
      ∧ (∀ w ∈ tp1.threads_, w = Worker.joined) := by
  unfold Terminate
  exact JoinAll_terminated f _ rfl (by simp [SharedQueue.Clear, SharedQueue.clearLoop_eq_nil])

/-- On a pool whose queue is empty, whose flag is set and whose threads are all
joined, `Terminate` changes nothing. -/
theorem Terminate_fixed (g : Nat) (tp : ThreadPool)
    (ht : tp.terminate_ = true) (hq : tp.queue_.queue_ = [])
    (hall : ∀ w ∈ tp.threads_, w = Worker.joined) :
    Terminate g tp = some tp := by
  have hsame : ({ tp with queue_ := tp.queue_.Clear, terminate_ := true } : ThreadPool) = tp := by
    cases tp with
    | mk th c t q sh =>
      cases q with
      | mk l =>
        simp only at ht hq
        subst ht; subst hq
        rfl
  unfold Terminate JoinAll
  simp only [hsame]
  exact joinLoop_all_joined g _ 0 tp hall

end ThreadPool

namespace ThreadPool

theorem launchLoop_spec : ∀ (n : Nat) (tp : ThreadPool),
    (launchLoop n tp).threads_ = tp.threads_ ++ List.replicate n Worker.spawned
      ∧ (launchLoop n tp).queue_ = tp.queue_
      ∧ (launchLoop n tp).terminate_ = tp.terminate_
      ∧ (launchLoop n tp).shared = tp.shared := by
  intro n
  induction n with
  | zero => intro tp; simp [launchLoop]
  | succ n ih =>
    intro tp
    obtain ⟨h1, h2, h3, h4⟩ :=
      ih { tp with threadsInWait_ := incr tp.threadsInWait_,
                   threads_ := tp.threads_ ++ [Worker.spawned] }
    refine ⟨?_, ?_, ?_, ?_⟩
    · simp only [launchLoop, h1, List.replicate_succ, List.append_assoc, List.singleton_append]
    · simp only [launchLoop, h2]
    · simp only [launchLoop, h3]
    · simp only [launchLoop, h4]

theorem busyLoop_queue_nil (fuel : Nat) (tp : ThreadPool) (hq : tp.queue_.queue_ = []) :
    busyLoop fuel tp = some tp := by
  cases fuel <;>
    simp [busyLoop, GetNumerOfTasksInQueue, SharedQueue.Size, toUInt, hq]

/-- The call `Restart(k)` with a count within the limit returns on every pool, with
exactly that many freshly spawned threads and an empty queue. -/
theorem Restart_returns (f k : Nat) (tp : ThreadPool) (hk : k ≤ maxAllowableThreads) :
    ∃ tp1, Restart (f + 2) k tp = some (Completion.returned tp1)
      ∧ tp1.threads_ = List.replicate k Worker.spawned
      ∧ tp1.queue_.queue_ = [] := by
  obtain ⟨tpa, ha, hta, hqa, _, halla⟩ := Terminate_returns f tp
  have hb : BusyYield (f + 2) tpa = some (false, tpa) := by
    simp [BusyYield, busyLoop_queue_nil _ _ hqa, GetNumerOfTasksInQueue,
      SharedQueue.Size, toUInt, hqa]
  have hj : JoinAll (f + 2) tpa = some tpa := joinLoop_all_joined _ _ 0 tpa halla
  have hnot : ¬ k > maxAllowableThreads := by omega
  refine ⟨LaunchThreads k { tpa with threads_ := [] }, ?_, ?_, ?_⟩
  · simp [Restart, hnot, ha, hb, hj]
  · unfold LaunchThreads
    split
    · simp [(launchLoop_spec k _).1]
    · have : k = 0 := by omega
      subst this
      rfl
  · unfold LaunchThreads
    split
    · rw [(launchLoop_spec k _).2.1]
      exact hqa
    · exact hqa

end ThreadPool

/-! ## Claims on the pool lifecycle -/

/-- C2: on every pool (any threads, any backlog, any flag value) and for every
`k ≤ 20`, `Restart(k)` returns, and afterwards `Size()` is exactly `k` and
`GetNumerOfTasksInQueue()` is `0`. -/
theorem C2_Restart_within_limit (f k : Nat) (tp : ThreadPool) (hk : k ≤ 20) :
    ∃ tp1, ThreadPool.Restart (f + 2) k tp = some (Completion.returned tp1)
      ∧ tp1.Size = k ∧ tp1.GetNumerOfTasksInQueue = 0 := by
  obtain ⟨tp1, h1, hth, hq⟩ := ThreadPool.Restart_returns f k tp hk
  refine ⟨tp1, h1, ?_, ?_⟩
  · simp only [ThreadPool.Size, hth, List.length_replicate, toUInt, UINT_MOD]
    omega
  · simp [ThreadPool.GetNumerOfTasksInQueue, SharedQueue.Size, hq, toUInt]

/-- C2 at a pool with two running workers, a backlog of two tasks and
`k = 3`. -/
theorem C2_Restart_within_limit_witness :
    ∃ tp1, ThreadPool.Restart 2 3
        { threads_ := [Worker.polling, Worker.executing (ThreadTask.job (Outcome.value 7) 0)],
          threadsInWait_ := 3, terminate_ := false,
          queue_ := SharedQueue.mk [ThreadTask.job (Outcome.value 1) 1,
                                    ThreadTask.job (Outcome.failure "bad") 2],
          shared := [none, none, none] }
        = some (Completion.returned tp1)
      ∧ tp1.Size = 3 ∧ tp1.GetNumerOfTasksInQueue = 0 :=
  C2_Restart_within_limit 0 3 _ (by decide)

/-- C3: on every pool and for every `k > 20`, `Restart(k)` throws the capacity
error and the pool (threads, idle counter, flag, queue contents in order, shared
states) is exactly as before the call; construction with `k` workers throws the
same error. -/
theorem C3_Restart_over_limit (fuel k : Nat) (tp : ThreadPool) (hk : k > 20) :
    ThreadPool.Restart fuel k tp = some (Completion.threw "Over the limit of the pool!" tp)
    ∧ ThreadPool.initN fuel k
        = some (Completion.threw "Over the limit of the pool!" ThreadPool.init) := by
  have h : k > ThreadPool.maxAllowableThreads := hk
  simp [ThreadPool.initN, ThreadPool.Restart, h]

/-- C3 at a pool with one running worker and one queued task, `k = 21`. -/
theorem C3_Restart_over_limit_witness :
    ThreadPool.Restart 0 21
        { threads_ := [Worker.polling], threadsInWait_ := 2, terminate_ := false,
          queue_ := SharedQueue.mk [ThreadTask.job (Outcome.value 1) 0], shared := [none] }
      = some (Completion.threw "Over the limit of the pool!"
        { threads_ := [Worker.polling], threadsInWait_ := 2, terminate_ := false,
          queue_ := SharedQueue.mk [ThreadTask.job (Outcome.value 1) 0], shared := [none] })
    ∧ ThreadPool.initN 0 21
        = some (Completion.threw "Over the limit of the pool!" ThreadPool.init) :=
  C3_Restart_over_limit 0 21 _ (by decide)

/-- C6: on every pool, also one on which `Terminate()` has already run,
`QueueJob` returns; the queue afterwards is the old queue followed by exactly
the one new task (so its length grows by one and the tasks already queued keep
their order), the new task refers to the fresh shared state that the returned
future refers to, and `threads_`, `Size()` and `terminate_` are unchanged. -/
theorem C6_QueueJob_frame (tp : ThreadPool) (body : Outcome) :
    (tp.QueueJob body).2.queue_.queue_
        = tp.queue_.queue_ ++ [ThreadTask.job body (tp.QueueJob body).1]
    ∧ (tp.QueueJob body).2.queue_.queue_.length = tp.queue_.queue_.length + 1
    ∧ (tp.QueueJob body).2.GetNumerOfTasksInQueue = toUInt (tp.queue_.queue_.length + 1)
    ∧ (tp.QueueJob body).1 = tp.shared.length
    ∧ (tp.QueueJob body).2.shared = tp.shared ++ [none]
    ∧ (tp.QueueJob body).2.threads_ = tp.threads_
    ∧ (tp.QueueJob body).2.Size = tp.Size
    ∧ (tp.QueueJob body).2.terminate_ = tp.terminate_
    ∧ (tp.QueueJob body).2.threadsInWait_ = tp.threadsInWait_ := by
  simp [ThreadPool.QueueJob, SharedQueue.Emplace, ThreadPool.GetNumerOfTasksInQueue,
    SharedQueue.Size, ThreadPool.Size]

/-- C7: on every pool `Terminate()` returns; calling it a second time returns
too and gives the same pool as the single call; in that pool the queue is empty
and the terminate flag is set. -/
theorem C7_Terminate_idempotent (f g : Nat) (tp : ThreadPool) :
    ∃ tp1, ThreadPool.Terminate (f + 2) tp = some tp1
      ∧ (ThreadPool.Terminate (f + 2) tp).bind (ThreadPool.Terminate g) = some tp1
      ∧ tp1.queue_.queue_ = [] ∧ tp1.GetNumerOfTasksInQueue = 0
      ∧ tp1.terminate_ = true := by
  obtain ⟨tp1, h1, ht, hq, _, hall⟩ := ThreadPool.Terminate_returns f tp
  refine ⟨tp1, h1, ?_, hq, ?_, ht⟩
  · rw [h1]
    exact ThreadPool.Terminate_fixed g tp1 ht hq hall
  · simp [ThreadPool.GetNumerOfTasksInQueue, SharedQueue.Size, hq, toUInt]

namespace ThreadPool

theorem QueueJob_threads (tp : ThreadPool) (body : Outcome) :
    (tp.QueueJob body).2.threads_ = tp.threads_ := rfl

theorem Event_run_length (tp : ThreadPool) (ev : Event) :
    (ev.run tp).threads_.length = tp.threads_.length := by
  cases ev with
  | step i => exact RunThreadStep_length i tp
  | submit body => rfl

theorem runEvents_length (evs : List Event) : ∀ tp : ThreadPool,
    (runEvents tp evs).threads_.length = tp.threads_.length := by
  induction evs with
  | nil => intro tp; rfl
  | cons ev rest ih =>
    intro tp
    simp only [runEvents, List.foldl_cons] at ih ⊢
    rw [ih (ev.run tp), Event_run_length]

end ThreadPool

/-- C4, as stated, fails: the pool constructed with one worker reports
`Size() = 1`, not `0`, after the first `Terminate()` and again after the
second. -/
theorem C4_Size_after_Terminate_counterexample :
    ThreadPool.initN 2 1 = some (Completion.returned
        { threads_ := [Worker.spawned], threadsInWait_ := 1, terminate_ := false,
          queue_ := SharedQueue.mk [], shared := [] })
    ∧ ThreadPool.Terminate 2
        { threads_ := [Worker.spawned], threadsInWait_ := 1, terminate_ := false,
          queue_ := SharedQueue.mk [], shared := [] }
      = some { threads_ := [Worker.joined], threadsInWait_ := 1, terminate_ := true,
               queue_ := SharedQueue.mk [], shared := [] }
    ∧ ThreadPool.Terminate 2
        { threads_ := [Worker.joined], threadsInWait_ := 1, terminate_ := true,
          queue_ := SharedQueue.mk [], shared := [] }
      = some { threads_ := [Worker.joined], threadsInWait_ := 1, terminate_ := true,
               queue_ := SharedQueue.mk [], shared := [] }
    ∧ ThreadPool.Size
        { threads_ := [Worker.joined], threadsInWait_ := 1, terminate_ := true,
          queue_ := SharedQueue.mk [], shared := [] } = 1
    ∧ ThreadPool.Size
        { threads_ := [Worker.joined], threadsInWait_ := 1, terminate_ := true,
          queue_ := SharedQueue.mk [], shared := [] } ≠ 0 := by
  decide

/-- C4, amended: for a pool constructed with `n ≤ 20` workers, whatever its
workers and submitters have done since (`evs`), two `Terminate()` calls in
succession both return; after the first and again after the second every
thread of the pool has been joined (none is joinable), and `Size()` still
reports `n`, since `Terminate()` leaves the joined threads in `threads_`. -/
theorem C4_Terminate_twice_amended (f g n : Nat) (evs : List Event) (hn : n ≤ 20) :
    ∃ tp0 tp1, ThreadPool.initN (f + 2) n = some (Completion.returned tp0)
      ∧ ThreadPool.Terminate (f + 2) (runEvents tp0 evs) = some tp1
      ∧ tp1.Size = n ∧ (∀ w ∈ tp1.threads_, w.joinable = false)
      ∧ ThreadPool.Terminate g tp1 = some tp1 := by
  obtain ⟨tp0, h0, hth, _⟩ := ThreadPool.Restart_returns f n ThreadPool.init hn
  obtain ⟨tp1, h1, ht, hq, hl, hall⟩ := ThreadPool.Terminate_returns f (runEvents tp0 evs)
  refine ⟨tp0, tp1, h0, h1, ?_, ?_, ThreadPool.Terminate_fixed g tp1 ht hq hall⟩
  · rw [ThreadPool.runEvents_length, hth, List.length_replicate] at hl
    simp only [ThreadPool.Size, hl, toUInt, UINT_MOD]
    omega
  · intro w hw
    rw [hall w hw]
    rfl

/-- C4 amended, at three workers, one job submitted and picked up before the
first `Terminate()`. -/
theorem C4_Terminate_twice_amended_witness :
    3 ≤ 20 ∧ ∃ tp0 tp1, ThreadPool.initN 2 3 = some (Completion.returned tp0)
      ∧ ThreadPool.Terminate 2
          (runEvents tp0 [Event.submit (Outcome.value 5), Event.step 0, Event.step 0,
            Event.step 0]) = some tp1
      ∧ tp1.Size = 3 ∧ (∀ w ∈ tp1.threads_, w.joinable = false)
      ∧ ThreadPool.Terminate 1 tp1 = some tp1 :=
  ⟨by decide, C4_Terminate_twice_amended 0 1 3 _ (by decide)⟩

/-- C10 fails on the code: a fresh pool launched with one worker has
`threadsInWait_ = 1` before the worker has run at all, `threadsInWait_ = 2`
(above `Size() = 1`) once that worker waits for work, still `1` while it
executes a task, and `1` instead of `0` after `Terminate()` has joined it. -/
theorem C10_idle_counter_evaluation :
    ThreadPool.initN 2 1 = some (Completion.returned
        { threads_ := [Worker.spawned], threadsInWait_ := 1, terminate_ := false,
          queue_ := SharedQueue.mk [], shared := [] })
    ∧ runEvents
        { threads_ := [Worker.spawned], threadsInWait_ := 1, terminate_ := false,
          queue_ := SharedQueue.mk [], shared := [] }
        [Event.step 0, Event.step 0]
      = { threads_ := [Worker.polling], threadsInWait_ := 2, terminate_ := false,
          queue_ := SharedQueue.mk [], shared := [] }
    ∧ ThreadPool.Size
        { threads_ := [Worker.polling], threadsInWait_ := 2, terminate_ := false,
          queue_ := SharedQueue.mk [], shared := [] } = 1
    ∧ runEvents
        { threads_ := [Worker.polling], threadsInWait_ := 2, terminate_ := false,
          queue_ := SharedQueue.mk [], shared := [] }
        [Event.submit (Outcome.value 5), Event.step 0]
      = { threads_ := [Worker.executing (ThreadTask.job (Outcome.value 5) 0)],
          threadsInWait_ := 1, terminate_ := false,
          queue_ := SharedQueue.mk [], shared := [none] }
    ∧ ThreadPool.Terminate 2
        { threads_ := [Worker.polling], threadsInWait_ := 2, terminate_ := false,
          queue_ := SharedQueue.mk [], shared := [] }
      = some { threads_ := [Worker.joined], threadsInWait_ := 1, terminate_ := true,
               queue_ := SharedQueue.mk [], shared := [] } := by
  decide

/-! ## Lemmas on task execution -/

namespace ThreadPool

theorem invoke_length (task : ThreadTask) (sh sh1 : List SharedState)
    (h : task.invoke sh = Except.ok sh1) : sh1.length = sh.length := by
  cases task with
  | empty => simp [ThreadTask.invoke] at h
  | job body state =>
    simp only [ThreadTask.invoke] at h
    split at h <;> simp at h
    subst h
    simp

theorem invoke_keeps (task : ThreadTask) (sh sh1 : List SharedState) (k : Nat) (r : Outcome)
    (h : task.invoke sh = Except.ok sh1) (hk : sh[k]? = some (some r)) :
    sh1[k]? = some (some r) := by
  cases task with
  | empty => simp [ThreadTask.invoke] at h
  | job body state =>
    simp only [ThreadTask.invoke] at h
    split at h <;> simp at h
    rename_i hnone
    subst h
    by_cases hks : state = k
    · subst hks
      rw [hnone] at hk
      simp at hk
    · rw [List.getElem?_set_ne hks]
      exact hk

/-- A worker step never shrinks the heap of shared states. -/
theorem RunThreadStep_shared_length (i : Nat) (tp : ThreadPool) :
    (RunThreadStep i tp).shared.length = tp.shared.length := by
  unfold RunThreadStep
  split <;> try simp
  · split <;> simp
  · split <;> simp
  · split
    · rename_i heq
      exact invoke_length _ _ _ heq
    · rfl

/-- A worker step never changes a shared state that is already satisfied. -/
theorem RunThreadStep_keeps (i k : Nat) (r : Outcome) (tp : ThreadPool)
    (hk : tp.shared[k]? = some (some r)) :
    (RunThreadStep i tp).shared[k]? = some (some r) := by
  unfold RunThreadStep
  split <;> try simpa using hk
  · split <;> simpa using hk
  · split <;> simpa using hk
  · split
    · rename_i heq
      exact invoke_keeps _ _ _ _ _ heq hk
    · exact hk

/-- The step that calls a packaged task leaves its shared state satisfied. -/
theorem RunThreadStep_fulfils (i k : Nat) (body : Outcome) (tp : ThreadPool)
    (hw : tp.threads_[i]? = some (Worker.executing (ThreadTask.job body k)))
    (hk : k < tp.shared.length) :
    ∃ r, (RunThreadStep i tp).shared[k]? = some (some r) := by
  cases hs : tp.shared[k]? with
  | none =>
    have := List.getElem?_eq_none_iff.mp hs
    omega
  | some st =>
    cases st with
    | some r =>
      exact ⟨r, RunThreadStep_keeps i k r tp hs⟩
    | none =>
      refine ⟨body, ?_⟩
      simp [RunThreadStep, hw, ThreadTask.invoke, hs, hk]

theorem Event_run_keeps (ev : Event) (k : Nat) (r : Outcome) (tp : ThreadPool)
    (hk : tp.shared[k]? = some (some r)) :
    (ev.run tp).shared[k]? = some (some r) := by
  cases ev with
  | step i => exact RunThreadStep_keeps i k r tp hk
  | submit body =>
    have hlt : k < tp.shared.length := (List.getElem?_eq_some_iff.mp hk).1
    simp only [Event.run, QueueJob]
    rw [List.getElem?_append_left hlt]
    exact hk

theorem runEvents_keeps (evs : List Event) (k : Nat) (r : Outcome) : ∀ tp : ThreadPool,
    tp.shared[k]? = some (some r) → (runEvents tp evs).shared[k]? = some (some r) := by
  induction evs with
  | nil => intro tp hk; exact hk
  | cons ev rest ih =>
    intro tp hk
    simp only [runEvents, List.foldl_cons] at ih ⊢
    exact ih _ (Event_run_keeps ev k r tp hk)

theorem Event_run_shared_length (ev : Event) (k : Nat) (tp : ThreadPool)
    (hk : k < tp.shared.length) : k < (ev.run tp).shared.length := by
  cases ev with
  | step i =>
    simp only [Event.run, RunThreadStep_shared_length]
    exact hk
  | submit body =>
    simp only [Event.run, QueueJob, List.length_append, List.length_singleton]
    omega

theorem Event_run_other (ev : Event) (i : Nat) (tp : ThreadPool) (hne : ev ≠ Event.step i) :
    (ev.run tp).threads_[i]? = tp.threads_[i]? := by
  cases ev with
  | step j =>
    have : j ≠ i := fun hji => hne (by rw [hji])
    exact RunThreadStep_other j i tp this
  | submit body => rfl

end ThreadPool

/-- Once worker `i` holds a packaged task whose shared state exists, every
interleaving in which worker `i` runs at least once leaves that shared state
satisfied. -/
theorem executing_fulfils (evs : List Event) (i k : Nat) (body : Outcome) :
    ∀ tp : ThreadPool,
      tp.threads_[i]? = some (Worker.executing (ThreadTask.job body k)) →
      k < tp.shared.length →
      Event.step i ∈ evs →
      ∃ r, (runEvents tp evs).shared[k]? = some (some r) := by
  induction evs with
  | nil => intro tp _ _ hmem; simp at hmem
  | cons ev rest ih =>
    intro tp hw hk hmem
    simp only [runEvents, List.foldl_cons] at ih ⊢
    by_cases hev : ev = Event.step i
    · subst hev
      obtain ⟨r, hr⟩ := ThreadPool.RunThreadStep_fulfils i k body tp hw hk
      exact ⟨r, ThreadPool.runEvents_keeps rest k r _ hr⟩
    · have hmem1 : Event.step i ∈ rest := by
        rcases List.mem_cons.mp hmem with h | h
        · exact absurd h.symm hev
        · exact h
      exact ih (ev.run tp)
        (by rw [ThreadPool.Event_run_other ev i tp hev]; exact hw)
        (ThreadPool.Event_run_shared_length ev k tp hk) hmem1

theorem runEvents_shared_length (evs : List Event) (k : Nat) : ∀ tp : ThreadPool,
    k < tp.shared.length → k < (runEvents tp evs).shared.length := by
  induction evs with
  | nil => intro tp hk; exact hk
  | cons ev rest ih =>
    intro tp hk
    simp only [runEvents, List.foldl_cons] at ih ⊢
    exact ih _ (ThreadPool.Event_run_shared_length ev k tp hk)

/-- C9: a job is submitted with `QueueJob` to any pool; the pool runs on under
any interleaving `evs1` of worker steps and further submissions.  If at that
point some worker `i` has started executing the job's task (so the pool has at
least one worker), then under every further interleaving `evs2` in which worker
`i` gets to run at least once, the job's result handle is fulfilled, with a
value or with a failure, and stays so. -/
theorem C9_started_task_fulfils (tp : ThreadPool) (body : Outcome) (evs1 evs2 : List Event)
    (i : Nat)
    (hstarted : (runEvents (tp.QueueJob body).2 evs1).threads_[i]?
      = some (Worker.executing (ThreadTask.job body (tp.QueueJob body).1)))
    (hfair : Event.step i ∈ evs2) :
    ∃ r, (runEvents (runEvents (tp.QueueJob body).2 evs1) evs2).shared[(tp.QueueJob body).1]?
      = some (some r) := by
  apply executing_fulfils evs2 i _ body _ hstarted _ hfair
  apply runEvents_shared_length
  simp [ThreadPool.QueueJob]

/-- C9 at a pool with one idle worker: the job is submitted, the worker pops
its task, and after the worker's next step (with another submission in
between) the handle is fulfilled. -/
theorem C9_started_task_fulfils_witness :
    (runEvents (ThreadPool.QueueJob
        { threads_ := [Worker.polling], threadsInWait_ := 2, terminate_ := false,
          queue_ := SharedQueue.mk [], shared := [] } (Outcome.failure "boom")).2
        [Event.step 0]).threads_[0]?
      = some (Worker.executing (ThreadTask.job (Outcome.failure "boom") 0))
    ∧ Event.step 0 ∈ [Event.submit (Outcome.value 1), Event.step 0]
    ∧ ∃ r, (runEvents (runEvents (ThreadPool.QueueJob
        { threads_ := [Worker.polling], threadsInWait_ := 2, terminate_ := false,
          queue_ := SharedQueue.mk [], shared := [] } (Outcome.failure "boom")).2
        [Event.step 0]) [Event.submit (Outcome.value 1), Event.step 0]).shared[0]?
      = some (some r) :=
  ⟨by decide, by decide,
    C9_started_task_fulfils
      { threads_ := [Worker.polling], threadsInWait_ := 2, terminate_ := false,
        queue_ := SharedQueue.mk [], shared := [] } (Outcome.failure "boom")
      [Event.step 0] [Event.submit (Outcome.value 1), Event.step 0] 0
      (by decide) (by decide)⟩

namespace ThreadPool

theorem set_same {α : Type} (l : List α) (i : Nat) (a : α) (h : l[i]? = some a) :
    l.set i a = l := by
  apply List.ext_getElem?
  intro j
  by_cases hji : i = j
  · subst hji
    have hi : i < l.length := (List.getElem?_eq_some_iff.mp h).1
    simp [hi, h]
  · rw [List.getElem?_set_ne hji]

/-- At the loop test with the flag unset, the worker goes on to `PopWaitFor`. -/
theorem step_checking (i : Nat) (tp : ThreadPool)
    (hw : tp.threads_[i]? = some Worker.checking) (ht : tp.terminate_ = false) :
    RunThreadStep i tp = { tp with threads_ := tp.threads_.set i Worker.polling } := by
  simp [RunThreadStep, hw, ht]

/-- In `PopWaitFor` on a non-empty queue, the worker takes the oldest task. -/
theorem step_polling_pop (i : Nat) (tp : ThreadPool) (task : ThreadTask)
    (rest : List ThreadTask)
    (hw : tp.threads_[i]? = some Worker.polling) (hq : tp.queue_.queue_ = task :: rest) :
    RunThreadStep i tp
      = { tp with queue_ := SharedQueue.mk rest, threadsInWait_ := decr tp.threadsInWait_,
                  threads_ := tp.threads_.set i (Worker.executing task) } := by
  simp [RunThreadStep, hw, SharedQueue.PopWaitFor, hq]

/-- Calling a packaged task whose shared state is not yet satisfied stores the
outcome of the callable, value or failure alike, and the worker returns to the
loop test. -/
theorem step_executing (i k : Nat) (body : Outcome) (tp : ThreadPool)
    (hw : tp.threads_[i]? = some (Worker.executing (ThreadTask.job body k)))
    (hk : tp.shared[k]? = some none) :
    RunThreadStep i tp
      = { tp with shared := tp.shared.set k (some body),
                  threadsInWait_ := incr tp.threadsInWait_,
                  threads_ := tp.threads_.set i Worker.checking } := by
  simp [RunThreadStep, hw, ThreadTask.invoke, hk]

/-- From the loop test with an empty queue: submit one job, then three steps of
worker `i` (loop test, `PopWaitFor`, task call). -/
theorem submit_and_run (i : Nat) (body : Outcome) (tp : ThreadPool)
    (hw : tp.threads_[i]? = some Worker.checking) (ht : tp.terminate_ = false)
    (hq : tp.queue_.queue_ = []) :
    runEvents tp [Event.submit body, Event.step i, Event.step i, Event.step i]
      = { tp with shared := tp.shared ++ [some body],
                  threadsInWait_ := incr (decr tp.threadsInWait_) } := by
  have hi : i < tp.threads_.length := (List.getElem?_eq_some_iff.mp hw).1
  obtain ⟨th, c, t, ⟨q⟩, sh⟩ := tp
  simp only at hw ht hq hi
  subst ht; subst hq
  simp only [runEvents, List.foldl_cons, List.foldl_nil, Event.run, QueueJob,
    SharedQueue.Emplace, List.nil_append]
  have e1 := step_checking i
    { threads_ := th, threadsInWait_ := c, terminate_ := false,
      queue_ := SharedQueue.mk [ThreadTask.job body sh.length], shared := sh ++ [none] }
    hw rfl
  rw [e1]
  have e2 := step_polling_pop i
    { threads_ := th.set i Worker.polling, threadsInWait_ := c, terminate_ := false,
      queue_ := SharedQueue.mk [ThreadTask.job body sh.length], shared := sh ++ [none] }
    (ThreadTask.job body sh.length) [] (by simp [hi]) rfl
  rw [e2]
  have e3 := step_executing i sh.length body
    { threads_ := (th.set i Worker.polling).set i
        (Worker.executing (ThreadTask.job body sh.length)),
      threadsInWait_ := decr c, terminate_ := false,
      queue_ := SharedQueue.mk [], shared := sh ++ [none] }
    (by simp [hi]) (by simp)
  rw [e3]
  simp [set_same _ _ _ hw]

end ThreadPool

/-- C5: fault isolation.  Worker `i` is idle at its loop test, the flag is unset
and the queue is empty.  A job whose body raises `what` is submitted with
`QueueJob` and worker `i` runs it: the job's handle holds the failure `what`
(not a value), worker `i` is back at its loop test (the error did not leave the
worker loop), and `threads_`, hence `Size()`, is as before.  A job returning `v`
submitted afterwards is run by the same worker `i`: its handle holds the value
`v`, the first handle still holds the failure, and `threads_` is as before. -/
theorem C5_fault_isolation (tp : ThreadPool) (i : Nat) (what : String) (v : Int)
    (hw : tp.threads_[i]? = some Worker.checking) (ht : tp.terminate_ = false)
    (hq : tp.queue_.queue_ = []) :
    (runEvents tp [Event.submit (Outcome.failure what), Event.step i, Event.step i,
        Event.step i]).shared[(tp.QueueJob (Outcome.failure what)).1]?
      = some (some (Outcome.failure what))
    ∧ (runEvents tp [Event.submit (Outcome.failure what), Event.step i, Event.step i,
        Event.step i]).threads_[i]? = some Worker.checking
    ∧ (runEvents tp [Event.submit (Outcome.failure what), Event.step i, Event.step i,
        Event.step i]).threads_ = tp.threads_
    ∧ (runEvents tp [Event.submit (Outcome.failure what), Event.step i, Event.step i,
        Event.step i]).Size = tp.Size
    ∧ (runEvents (runEvents tp [Event.submit (Outcome.failure what), Event.step i,
          Event.step i, Event.step i])
        [Event.submit (Outcome.value v), Event.step i, Event.step i, Event.step i]).shared[
          ((runEvents tp [Event.submit (Outcome.failure what), Event.step i, Event.step i,
            Event.step i]).QueueJob (Outcome.value v)).1]?
      = some (some (Outcome.value v))
    ∧ (runEvents (runEvents tp [Event.submit (Outcome.failure what), Event.step i,
          Event.step i, Event.step i])
        [Event.submit (Outcome.value v), Event.step i, Event.step i, Event.step i]).shared[
          (tp.QueueJob (Outcome.failure what)).1]?
      = some (some (Outcome.failure what))
    ∧ (runEvents (runEvents tp [Event.submit (Outcome.failure what), Event.step i,
          Event.step i, Event.step i])
        [Event.submit (Outcome.value v), Event.step i, Event.step i, Event.step i]).threads_
      = tp.threads_
    ∧ (runEvents (runEvents tp [Event.submit (Outcome.failure what), Event.step i,
          Event.step i, Event.step i])
        [Event.submit (Outcome.value v), Event.step i, Event.step i, Event.step i]).Size
      = tp.Size := by
  have e1 := ThreadPool.submit_and_run i (Outcome.failure what) tp hw ht hq
  rw [e1]
  have e2 := ThreadPool.submit_and_run i (Outcome.value v)
    { tp with shared := tp.shared ++ [some (Outcome.failure what)],
              threadsInWait_ := ThreadPool.incr (ThreadPool.decr tp.threadsInWait_) }
    hw ht hq
  rw [e2]
  simp only [ThreadPool.QueueJob, ThreadPool.Size, hw, List.length_append,
    List.length_singleton, List.append_assoc, List.singleton_append, and_true, true_and]
  refine ⟨?_, ?_, ?_⟩
  · rw [List.getElem?_append_right (Nat.le_refl _)]
    simp
  · rw [List.getElem?_append_right (by omega)]
    simp
  · rw [List.getElem?_append_right (Nat.le_refl _)]
    simp

/-- C5 at a pool with one idle worker: a job raising "wrong thread priority!!",
then a job returning `42`. -/
theorem C5_fault_isolation_witness :
    (runEvents
        { threads_ := [Worker.checking], threadsInWait_ := 2, terminate_ := false,
          queue_ := SharedQueue.mk [], shared := [] }
        [Event.submit (Outcome.failure "wrong thread priority!!"), Event.step 0,
          Event.step 0, Event.step 0]).shared[0]?
      = some (some (Outcome.failure "wrong thread priority!!"))
    ∧ (runEvents (runEvents
        { threads_ := [Worker.checking], threadsInWait_ := 2, terminate_ := false,
          queue_ := SharedQueue.mk [], shared := [] }
        [Event.submit (Outcome.failure "wrong thread priority!!"), Event.step 0,
          Event.step 0, Event.step 0])
        [Event.submit (Outcome.value 42), Event.step 0, Event.step 0,
          Event.step 0]).shared[1]?
      = some (some (Outcome.value 42)) :=
  have h := C5_fault_isolation
    { threads_ := [Worker.checking], threadsInWait_ := 2, terminate_ := false,
      queue_ := SharedQueue.mk [], shared := [] }
    0 "wrong thread priority!!" 42 (by decide) (by decide) (by decide)
  ⟨h.1, h.2.2.2.2.1⟩
